import Mathlib

/-!
# Verification of the ai-command interpreter (`src/ai-compiler/src/interpreter.rs`)

Shallow embedding of the stack-based virtual machine in `interpreter.rs`.
Rust `f64` numbers are modelled as `ℚ` (exact on the integer-valued inputs
the properties below exercise); `HashMap`s are modelled as association
lists where `insert` prepends and `lookup` returns the newest binding,
which matches `HashMap` insert-replaces semantics observably; `Vec` stacks
are modelled as Lean lists growing at the end, so `push` appends, `pop`
removes the last element, and `get(i)` indexes from the front, exactly as
in the Rust.  A Rust `panic!`/`todo!()`/`unwrap()` failure is modelled by
the dedicated result constructor `StepOut.panic`.
-/

set_option maxRecDepth 4000

namespace AiCommand

/-- Runtime values (`Value` in compiler.rs, per spec §3: `Number(float64)`,
`String(text)`, `Bool`). -/
inductive Value where
  | Number (n : ℚ)
  | String (s : String)
  | Bool (b : Bool)
deriving DecidableEq, Repr

/-- Alias for `Bool` usable inside the `Value` namespace, where the plain
name would resolve to the `Value.Bool` constructor. -/
abbrev BoolT := Bool

/-- Modelled from the spec: the `truthy` coercion of `Value` is declared in
compiler.rs, which is not under src/; the spec fixes only that every value
has one.  No verified property depends on its concrete behaviour. -/
def Value.truthy : Value → BoolT
  | .Number n => n ≠ 0
  | .String s => s ≠ ""
  | .Bool b => b

/-- The bytecode instruction set (`Op` in compiler.rs, per spec §3). -/
inductive Op where
  | Load (a : Nat)
  | Store (a : Nat)
  | Get (name : String)
  | Set (name : String)
  | Push (v : Value)
  | Pop
  | Dup
  | Add | Sub | Mul | Div | Mod | Exp | Neg | Abs
  | And | Or | Xor
  | Eq | Ne | Lt | Le | Gt | Ge
  | Jump (a : Nat)
  | JumpUnless (a : Nat)
  | JumpIf (a : Nat)
  | Label (name : String)
  | Call (name : String)
  | CallParallel (name : String)
  | CallRace (name : String)
deriving DecidableEq, Repr

/-- Runtime errors (`Error` in error.rs, variants as used by interpreter.rs
and listed in spec §7). -/
inductive Error where
  | StackUnderflow (ip : Nat)
  | IndexOutOfBounds (ip : Nat)
  | Type (msg : String)
  | UnregisteredCallable (i : Nat) (name : String)
  | UnregisteredProperty (i : Nat) (name : String)
  | UnsettableProperty (i : Nat) (name : String)
  | DuplicateCallable (name : String)
  | DuplicateProperty (name : String)
  | InterpreterActive
  | InvalidCall (i : Nat)
deriving DecidableEq, Repr

/-- Modelled from the spec: the `Callable` trait (compiler.rs, not under
src/) exposes `call() -> bool`.  An arbitrary stateful host action is
modelled as a predetermined result stream `results` plus an invocation
counter `idx`; each `call` returns `results idx` and bumps the counter. -/
structure Callable where
  results : Nat → Bool
  idx : Nat

/-- One invocation of a host callable: the returned flag and the callable's
successor state. -/
def Callable.call (c : Callable) : Bool × Callable :=
  (c.results c.idx, { c with idx := c.idx + 1 })

/-- Modelled from the spec: the `Prop` trait (compiler.rs, not under src/)
exposes `get() -> Value`, `set(Value)`, `settable() -> bool`; modelled as a
stored value with a fixed settability flag. -/
structure PropT where
  value : Value
  settable : Bool
deriving DecidableEq, Repr

def PropT.get (p : PropT) : Value := p.value

def PropT.set (p : PropT) (v : Value) : PropT := { p with value := v }

/-- `StackFrame` from interpreter.rs. -/
structure StackFrame where
  return_addr : Nat
  stack_offset : Nat
deriving DecidableEq, Repr

/-- `InterpreterState` from interpreter.rs. -/
inductive InterpreterState where
  | Continue
  | Yield
  | Stop
deriving DecidableEq, Repr

/-- Association-list model of `HashMap::contains_key`. -/
def containsKey {α : Type} (m : List (String × α)) (k : String) : Bool :=
  (List.lookup k m).isSome

/-- Association-list model of `HashMap::get_mut` followed by writing the
entry in place: replaces the newest binding of `k`. -/
def updateKey {α : Type} : List (String × α) → String → α → List (String × α)
  | [], _, _ => []
  | (k', v') :: rest, k, v =>
      if k' = k then (k, v) :: rest else (k', v') :: updateKey rest k v

/-- Model of `Vec::pop` on an end-growing stack: returns the last element
and the remaining stack, or `none` when empty. -/
def popEnd {α : Type} : List α → Option (α × List α)
  | [] => none
  | [x] => some (x, [])
  | x :: y :: rest =>
      match popEnd (y :: rest) with
      | some (v, front) => some (v, x :: front)
      | none => none

/-- The interpreter state (`Interpreter` in interpreter.rs). -/
structure Interpreter where
  program : List Op
  ip : Nat
  stack : List Value
  call_stack : List StackFrame
  props : List (String × PropT)
  callables : List (String × Callable)
  groups : List (String × Nat)
  running : Bool

/-- `Interpreter::stack_offset`: the newest frame's `stack_offset`, 0 when
the call stack is empty. -/
def Interpreter.stack_offset (vm : Interpreter) : Nat :=
  ((popEnd vm.call_stack).map (fun p => p.1.stack_offset)).getD 0

/-- Result of one `step()`: `Ok(state)`, `Err(error)`, or a Rust panic
(`todo!()` / `unwrap()` on `None` / `HashMap` index on a missing key). -/
inductive StepOut where
  | ok (s : InterpreterState)
  | err (e : Error)
  | panic
deriving DecidableEq, Repr

/-- `Interpreter::scan_groups`, iteration worker: walk the enumerated
program and insert an entry for every `Label`. -/
def scan_aux : List (Nat × Op) → List (String × Nat) → List (String × Nat)
  | [], gs => gs
  | (i, .Label name) :: rest, gs => scan_aux rest ((name, i) :: gs)
  | _ :: rest, gs => scan_aux rest gs

/-- `Interpreter::scan_groups`: name → address of its `Label`, later labels
replacing earlier ones as `HashMap::insert` does. -/
def scan_groups (program : List Op) : List (String × Nat) :=
  scan_aux program.enum []

/-- `Interpreter::new`. -/
def Interpreter.new (program : List Op) : Interpreter where
  program := program
  ip := 0
  stack := []
  call_stack := []
  props := []
  callables := []
  groups := scan_groups program
  running := false

/-- `Interpreter::reset`. -/
def Interpreter.reset (vm : Interpreter) : Interpreter :=
  { vm with running := false, ip := 0, stack := [], call_stack := [] }

/-- `Interpreter::register_callable`. -/
def Interpreter.register_callable (vm : Interpreter) (name : String)
    (callable : Callable) : Except Error Unit × Interpreter :=
  if vm.running then
    (.error .InterpreterActive, vm)
  else if containsKey vm.callables name || containsKey vm.groups name then
    (.error (.DuplicateCallable name), vm)
  else
    (.ok (), { vm with callables := (name, callable) :: vm.callables })

/-- `Interpreter::register_property`. -/
def Interpreter.register_property (vm : Interpreter) (name : String)
    (prop : PropT) : Except Error Unit × Interpreter :=
  if vm.running then
    (.error .InterpreterActive, vm)
  else if containsKey vm.props name then
    (.error (.DuplicateProperty name), vm)
  else
    (.ok (), { vm with props := (name, prop) :: vm.props })

/-- `Interpreter::verify_externals`, iteration worker over the enumerated
program, carrying the collected `errors` and the `seen` name set. -/
def verify_aux (props : List (String × PropT)) (cs : List (String × Callable))
    (gs : List (String × Nat)) :
    List (Nat × Op) → List Error → List String → List Error
  | [], errors, _ => errors
  | (i, op) :: rest, errors, seen =>
    match op with
    | .Get name =>
        if !seen.contains name && !containsKey props name then
          verify_aux props cs gs rest (errors ++ [.UnregisteredProperty i name]) (name :: seen)
        else
          verify_aux props cs gs rest errors seen
    | .Set name =>
        match List.lookup name props with
        | some prop =>
            if !prop.settable && !seen.contains name then
              verify_aux props cs gs rest (errors ++ [.UnsettableProperty i name]) (name :: seen)
            else
              verify_aux props cs gs rest errors seen
        | none =>
            if !seen.contains name then
              verify_aux props cs gs rest (errors ++ [.UnregisteredProperty i name]) (name :: seen)
            else
              verify_aux props cs gs rest errors seen
    | .Call name =>
        if !(containsKey cs name || containsKey gs name) && !seen.contains name then
          verify_aux props cs gs rest (errors ++ [.UnregisteredCallable i name]) (name :: seen)
        else
          verify_aux props cs gs rest errors seen
    | .CallParallel name =>
        if !containsKey gs name && !seen.contains name then
          verify_aux props cs gs rest (errors ++ [.InvalidCall i]) (name :: seen)
        else
          verify_aux props cs gs rest errors seen
    | .CallRace name =>
        if !containsKey gs name && !seen.contains name then
          verify_aux props cs gs rest (errors ++ [.InvalidCall i]) (name :: seen)
        else
          verify_aux props cs gs rest errors seen
    | _ => verify_aux props cs gs rest errors seen

/-- `Interpreter::verify_externals`: the collected error list (empty list =
`Ok(())`). -/
def verify_externals (program : List Op) (props : List (String × PropT))
    (cs : List (String × Callable)) (gs : List (String × Nat)) : List Error :=
  verify_aux props cs gs program.enum [] []

/-- Truncation toward zero on ℚ, as Rust `f64` casts/remainder use. -/
def ratTrunc (q : ℚ) : ℤ :=
  if q < 0 then -⌊-q⌋ else ⌊q⌋

/-- Rust `%` on `f64` (truncated remainder), on the exact-rational model. -/
def fmod (m n : ℚ) : ℚ :=
  m - n * (ratTrunc (m / n) : ℚ)

/-- Rust `f64::powf`, modelled exactly on integer exponents via `zpow`;
non-integer exponents (which `powf` computes transcendentally and no
verified property exercises) are mapped to 0. -/
def powf (m n : ℚ) : ℚ :=
  if n.den = 1 then m ^ n.num else 0

/-- The `binop!` macro of interpreter.rs: pop `a` (first, so the right
operand) then `b` (the left operand); when both are numbers push
`res (b OP a)` (the macro writes it `$res(m $op n)` with `n` from `a` and
`m` from `b`); otherwise fail with the fixed type error. -/
def binop (vm : Interpreter) (res : ℚ → ℚ → Value) : StepOut × Interpreter :=
  match popEnd vm.stack with
  | none => (.err (.StackUnderflow (vm.ip - 1)), vm)
  | some (a, s1) =>
    match popEnd s1 with
    | none => (.err (.StackUnderflow (vm.ip - 1)), { vm with stack := s1 })
    | some (b, s2) =>
      match a, b with
      | .Number n, .Number m =>
          (.ok .Continue, { vm with stack := s2 ++ [res m n] })
      | _, _ =>
          (.err (.Type "Both operands must be numbers"), { vm with stack := s2 })

/-- The `logicop!` macro of interpreter.rs: pop `a` then `b`, push
`Bool(a.truthy OP b.truthy)`. -/
def logicop (vm : Interpreter) (op : Bool → Bool → Bool) : StepOut × Interpreter :=
  match popEnd vm.stack with
  | none => (.err (.StackUnderflow (vm.ip - 1)), vm)
  | some (a, s1) =>
    match popEnd s1 with
    | none => (.err (.StackUnderflow (vm.ip - 1)), { vm with stack := s1 })
    | some (b, s2) =>
        (.ok .Continue, { vm with stack := s2 ++ [.Bool (op a.truthy b.truthy)] })

/-- The instruction-dispatch `match op` of `Interpreter::step`; `vm` has
already had `running` set and `ip` advanced past the fetched instruction,
so error positions use `vm.ip - 1` exactly as the Rust does. -/
def exec (op : Op) (vm : Interpreter) : StepOut × Interpreter :=
  match op with
  | .Load a =>
      match vm.stack.get? (vm.stack_offset + a) with
      | none => (.err (.IndexOutOfBounds (vm.ip - 1)), vm)
      | some v => (.ok .Continue, { vm with stack := vm.stack ++ [v] })
  | .Store a =>
      match popEnd vm.stack with
      | none => (.err (.StackUnderflow (vm.ip - 1)), vm)
      | some (value, rest) =>
        if vm.stack_offset + a < rest.length then
          (.ok .Continue, { vm with stack := rest.set (vm.stack_offset + a) value })
        else
          (.err (.IndexOutOfBounds (vm.ip - 1)), { vm with stack := rest })
  | .Get name =>
      match List.lookup name vm.props with
      | none => (.panic, vm)
      | some p => (.ok .Continue, { vm with stack := vm.stack ++ [p.get] })
  | .Set name =>
      match popEnd vm.stack with
      | none => (.err (.StackUnderflow (vm.ip - 1)), vm)
      | some (value, rest) =>
        match List.lookup name vm.props with
        | none => (.panic, { vm with stack := rest })
        | some p =>
            (.ok .Continue,
             { vm with stack := rest, props := updateKey vm.props name (p.set value) })
  | .Push v => (.ok .Continue, { vm with stack := vm.stack ++ [v] })
  | .Pop => (.ok .Continue, { vm with stack := vm.stack.dropLast })
  | .Dup =>
      match vm.stack.getLast? with
      | none => (.err (.StackUnderflow (vm.ip - 1)), vm)
      | some v => (.ok .Continue, { vm with stack := vm.stack ++ [v] })
  | .Add =>
      match popEnd vm.stack with
      | none => (.err (.StackUnderflow (vm.ip - 1)), vm)
      | some (a, s1) =>
        match popEnd s1 with
        | none => (.err (.StackUnderflow (vm.ip - 1)), { vm with stack := s1 })
        | some (b, s2) =>
          match a, b with
          | .Number n, .Number m =>
              (.ok .Continue, { vm with stack := s2 ++ [.Number (m + n)] })
          | .String s, .String t =>
              (.ok .Continue, { vm with stack := s2 ++ [.String (t ++ s)] })
          | .Number _, _ =>
              (.err (.Type "Right operand must be a number"), { vm with stack := s2 })
          | .String _, _ =>
              (.err (.Type "Right operand must be a string"), { vm with stack := s2 })
          | _, _ =>
              (.err (.Type "Operands must be a number or a string"), { vm with stack := s2 })
  | .Sub => binop vm (fun m n => .Number (m - n))
  | .Mul => binop vm (fun m n => .Number (m * n))
  | .Div => binop vm (fun m n => .Number (m / n))
  | .Mod => binop vm (fun m n => .Number (fmod m n))
  | .Exp => binop vm (fun m n => .Number (powf m n))
  | .Neg =>
      match popEnd vm.stack with
      | some (.Number n, rest) => (.ok .Continue, { vm with stack := rest ++ [.Number (-n)] })
      | none => (.err (.StackUnderflow (vm.ip - 1)), vm)
      | some _ => (.err (.Type "Only numbers can be negated"), vm)
  | .Abs =>
      match popEnd vm.stack with
      | some (.Number n, rest) => (.ok .Continue, { vm with stack := rest ++ [.Number |n|] })
      | none => (.err (.StackUnderflow (vm.ip - 1)), vm)
      | some _ => (.err (.Type "Absolute value only works with numbers"), vm)
  | .And => logicop vm (fun a b => a && b)
  | .Or => logicop vm (fun a b => a || b)
  | .Xor =>
      match popEnd vm.stack with
      | none => (.err (.StackUnderflow (vm.ip - 1)), vm)
      | some (a, s1) =>
        match popEnd s1 with
        | none => (.err (.StackUnderflow (vm.ip - 1)), { vm with stack := s1 })
        | some (b, s2) =>
          let a := a.truthy
          let b := b.truthy
          (.ok .Continue, { vm with stack := s2 ++ [.Bool (a && !b || b && !a)] })
  | .Eq =>
      match popEnd vm.stack with
      | none => (.err (.StackUnderflow (vm.ip - 1)), vm)
      | some (a, s1) =>
        match popEnd s1 with
        | none => (.err (.StackUnderflow (vm.ip - 1)), { vm with stack := s1 })
        | some (b, s2) =>
            (.ok .Continue, { vm with stack := s2 ++ [.Bool (a = b)] })
  | .Ne =>
      match popEnd vm.stack with
      | none => (.err (.StackUnderflow (vm.ip - 1)), vm)
      | some (a, s1) =>
        match popEnd s1 with
        | none => (.err (.StackUnderflow (vm.ip - 1)), { vm with stack := s1 })
        | some (b, s2) =>
            (.ok .Continue, { vm with stack := s2 ++ [.Bool (a ≠ b)] })
  | .Lt => binop vm (fun m n => .Bool (m < n))
  | .Le => binop vm (fun m n => .Bool (m ≤ n))
  | .Gt => binop vm (fun m n => .Bool (m > n))
  | .Ge => binop vm (fun m n => .Bool (m ≥ n))
  | .Jump a => (.ok .Continue, { vm with ip := a })
  | .JumpUnless a =>
      match popEnd vm.stack with
      | none => (.err (.StackUnderflow (vm.ip - 1)), vm)
      | some (cond, rest) =>
        if !cond.truthy then
          (.ok .Continue, { vm with stack := rest, ip := a })
        else
          (.ok .Continue, { vm with stack := rest })
  | .JumpIf a =>
      match popEnd vm.stack with
      | none => (.err (.StackUnderflow (vm.ip - 1)), vm)
      | some (cond, rest) =>
        if cond.truthy then
          (.ok .Continue, { vm with stack := rest, ip := a })
        else
          (.ok .Continue, { vm with stack := rest })
  | .Label _ => (.ok .Continue, vm)
  | .Call name =>
      match List.lookup name vm.callables with
      | some c =>
          let r := c.call
          let vm' := { vm with callables := updateKey vm.callables name r.2 }
          if !r.1 then (.ok .Yield, vm') else (.ok .Continue, vm')
      | none =>
        match List.lookup name vm.groups with
        | none => (.err (.UnregisteredCallable (vm.ip - 1) name), vm)
        | some addr =>
            (.ok .Continue,
             { vm with
                call_stack := vm.call_stack ++ [⟨vm.ip, vm.stack.length⟩],
                ip := addr })
  | .CallParallel _ => (.ok .Continue, vm)
  | .CallRace _ => (.panic, vm)

/-- `Interpreter::step` after the startup verification: set `running`,
fetch at `ip` (past-the-end terminates with `Stop` and clears `running`),
advance `ip`, dispatch. -/
def stepExec (vm : Interpreter) : StepOut × Interpreter :=
  match vm.program.get? vm.ip with
  | none => (.ok .Stop, { vm with running := false })
  | some op => exec op { vm with ip := vm.ip + 1 }

/-- `Interpreter::step`: when not yet running, run `verify_externals`
first and surface only the first collected error, touching nothing. -/
def step (vm : Interpreter) : StepOut × Interpreter :=
  if vm.running then
    stepExec { vm with running := true }
  else
    match verify_externals vm.program vm.props vm.callables vm.groups with
    | e :: _ => (.err e, vm)
    | [] => stepExec { vm with running := true }

/-- The interpreter state reached after one `step()` (used to iterate). -/
def stepVM (vm : Interpreter) : Interpreter :=
  (step vm).2

/-- The instructions whose execution begins by consuming operand-stack
entries (`pop!`, `last`/`last_mut`): on an empty stack each of these is the
first point of failure and raises `StackUnderflow`.  `Pop` is deliberately
absent: interpreter.rs executes it as `self.stack.pop();`, discarding the
`Option`. -/
def consumesStack : Op → Bool
  | .Store _ | .Set _ | .Dup
  | .Add | .Sub | .Mul | .Div | .Mod | .Exp | .Neg | .Abs
  | .And | .Or | .Xor | .Eq | .Ne | .Lt | .Le | .Gt | .Ge
  | .JumpUnless _ | .JumpIf _ => true
  | _ => false

/-- The value kind (variant tag) of a runtime value. -/
def Value.kind : Value → Nat
  | .Number _ => 0
  | .String _ => 1
  | .Bool _ => 2

/-- The message of the `Type` error `Add` raises on a mismatched pairing,
as a function of the first-popped (right) operand: interpreter.rs selects
the message by matching the popped pair `(a, b)` with `a` the right
operand. -/
def addTypeErrMsg : Value → String
  | .Number _ => "Right operand must be a number"
  | .String _ => "Right operand must be a string"
  | .Bool _ => "Operands must be a number or a string"

/-- The external name referenced by an instruction, if any: the operand of
`Get`/`Set`/`Call`/`CallParallel`/`CallRace`. -/
def extName : Op → Option String
  | .Get n => some n
  | .Set n => some n
  | .Call n => some n
  | .CallParallel n => some n
  | .CallRace n => some n
  | _ => none

/-- Whether an instruction's external reference is invalid against the
registered capabilities: an unregistered property for `Get`, an
unregistered or unsettable property for `Set`, a name that is neither a
callable nor a group for `Call`, and a non-group for
`CallParallel`/`CallRace`. -/
def offends (props : List (String × PropT)) (cs : List (String × Callable))
    (gs : List (String × Nat)) : Op → Bool
  | .Get n => !containsKey props n
  | .Set n =>
      match List.lookup n props with
      | some p => !p.settable
      | none => true
  | .Call n => !(containsKey cs n || containsKey gs n)
  | .CallParallel n => !containsKey gs n
  | .CallRace n => !containsKey gs n
  | _ => false

/-- Written from the spec's words ("all distinct offending names are
collected, each name reported at most once, the first time it is seen"):
the enumerated instructions that offend and whose name has not already
been reported, scanning linearly. -/
def firstOffenders (props : List (String × PropT)) (cs : List (String × Callable))
    (gs : List (String × Nat)) : List (Nat × Op) → List String → List (Nat × Op)
  | [], _ => []
  | (i, op) :: rest, seen =>
    match extName op with
    | some n =>
      if offends props cs gs op && !seen.contains n then
        (i, op) :: firstOffenders props cs gs rest (n :: seen)
      else
        firstOffenders props cs gs rest seen
    | none => firstOffenders props cs gs rest seen

/-- The error an offending instruction is reported as: `Set` of a
registered-but-unsettable property is `UnsettableProperty`, the other
property/callable failures name the instruction and offending name, and a
bad `CallParallel`/`CallRace` target is `InvalidCall`. -/
def mkVerifyError (props : List (String × PropT)) : Nat × Op → Error
  | (i, .Get n) => .UnregisteredProperty i n
  | (i, .Set n) =>
      if containsKey props n then .UnsettableProperty i n else .UnregisteredProperty i n
  | (i, .Call n) => .UnregisteredCallable i n
  | (i, _) => .InvalidCall i

/-- Written from the spec's words: the verification report lists, in scan
order, one error per distinct offending name, at its first offending
instruction. -/
def spec_verify_report (program : List Op) (props : List (String × PropT))
    (cs : List (String × Callable)) (gs : List (String × Nat)) : List Error :=
  (firstOffenders props cs gs program.enum []).map (mkVerifyError props)

/-- The offending name carried by a verification error (`InvalidCall`
carries only the instruction index). -/
def errorName : Error → Option String
  | .UnregisteredCallable _ n => some n
  | .UnregisteredProperty _ n => some n
  | .UnsettableProperty _ n => some n
  | _ => none

/-! ## Helper lemmas -/

theorem popEnd_concat {α : Type} (xs : List α) (v : α) :
    popEnd (xs ++ [v]) = some (v, xs) := by
  induction xs with
  | nil => rfl
  | cons x xs ih =>
    cases xs with
    | nil => simp [popEnd]
    | cons y ys =>
      simp only [List.cons_append] at ih ⊢
      simp [popEnd, ih]

theorem popEnd_two {α : Type} (xs : List α) (b a : α) :
    popEnd (xs ++ [b, a]) = some (a, xs ++ [b]) := by
  have h := popEnd_concat (xs ++ [b]) a
  simpa using h

theorem running_eta (vm : Interpreter) (h : vm.running = true) :
    { vm with running := true } = vm := by
  cases vm
  simp_all

/-- While running, a `step()` that fetches `op` is exactly `exec op` on the
state with the pointer advanced. -/
theorem step_running_exec (vm : Interpreter) (op : Op) (hr : vm.running = true)
    (hf : vm.program.get? vm.ip = some op) :
    step vm = exec op { vm with ip := vm.ip + 1 } := by
  rw [step, if_pos hr, running_eta vm hr, stepExec, hf]

theorem scan_aux_lookup (program : List Op) :
    ∀ (l : List (Nat × Op)) (gs : List (String × Nat)),
    (∀ i op, (i, op) ∈ l → program.get? i = some op) →
    (∀ n a, List.lookup n gs = some a → program.get? a = some (.Label n)) →
    ∀ n a, List.lookup n (scan_aux l gs) = some a → program.get? a = some (.Label n) := by
  intro l
  induction l with
  | nil =>
    intro gs _ hgs n a hla
    exact hgs n a hla
  | cons hd rest ih =>
    intro gs hmem hgs n a hla
    obtain ⟨i, op⟩ := hd
    match hop : op with
    | .Label nm =>
      refine ih ((nm, i) :: gs) (fun j q hq => hmem j q (List.mem_cons_of_mem _ hq))
        ?_ n a (by simpa [scan_aux] using hla)
      intro n' a' hl
      by_cases hn : n' = nm
      · simp [List.lookup, hn] at hl
        subst hl
        simpa [hn] using hmem i (Op.Label nm) (List.mem_cons_self _ _)
      · have hb : (n' == nm) = false := beq_eq_false_iff_ne.mpr hn
        refine hgs n' a' ?_
        simpa [List.lookup, hb] using hl
    | .Load x | .Store x | .Get x | .Set x | .Push x | .Pop | .Dup | .Add | .Sub | .Mul
    | .Div | .Mod | .Exp | .Neg | .Abs | .And | .Or | .Xor | .Eq | .Ne | .Lt | .Le
    | .Gt | .Ge | .Jump x | .JumpUnless x | .JumpIf x | .Call x | .CallParallel x
    | .CallRace x =>
      exact ih gs (fun j q hq => hmem j q (List.mem_cons_of_mem _ hq)) hgs n a
        (by simpa [scan_aux] using hla)

theorem scan_groups_label (p : List Op) (n : String) (a : Nat)
    (h : List.lookup n (scan_groups p) = some a) : p.get? a = some (.Label n) := by
  refine scan_aux_lookup p p.enum [] ?_ (by simp) n a h
  intro i op hmem
  rw [List.get?_eq_getElem?]
  exact List.mk_mem_enum_iff_getElem?.mp hmem

/-! ## Claim theorems -/

/-- C7: when the pre-execution verification pass finds offending names,
`step()` returns exactly the first error of the collected list and leaves
the interpreter (instruction pointer, operand stack, call stack, all
registrations, the running flag) completely unchanged. -/
theorem step_surfaces_first_verification_error (vm : Interpreter) (e : Error)
    (rest : List Error) (hr : vm.running = false)
    (hv : verify_externals vm.program vm.props vm.callables vm.groups = e :: rest) :
    step vm = (.err e, vm) := by
  rw [step, if_neg (by simp [hr]), hv]

/-- C7 witness: a program whose verification pass collects two errors; the
first (and only the first) is surfaced and the state is untouched. -/
theorem step_surfaces_first_verification_error_witness :
    step (Interpreter.new [.Get "a", .Call "b"]) =
      (.err (.UnregisteredProperty 0 "a"), Interpreter.new [.Get "a", .Call "b"]) :=
  step_surfaces_first_verification_error (Interpreter.new [.Get "a", .Call "b"])
    (.UnregisteredProperty 0 "a") [.UnregisteredCallable 1 "b"] rfl rfl

/-- C5: a `Call` of a registered callable whose `call()` returns `false`
makes `step()` return `Yield` with the instruction pointer already advanced
past the `Call` (the next `step()` executes the following instruction; the
same `Call` is not retried), the operand and call stacks untouched, and
only the callable's own state updated. -/
theorem call_false_yields_past_call (vm : Interpreter) (name : String)
    (c : Callable) (hr : vm.running = true)
    (hf : vm.program.get? vm.ip = some (.Call name))
    (hc : List.lookup name vm.callables = some c)
    (hfalse : (c.call).1 = false) :
    step vm = (.ok .Yield,
      { vm with ip := vm.ip + 1, callables := updateKey vm.callables name (c.call).2 }) := by
  rw [step_running_exec vm _ hr hf]
  simp [exec, hc, hfalse]

/-- C5 witness: a one-instruction program calling a host action that
reports non-completion; `step()` yields with the pointer on the next
instruction. -/
theorem call_false_yields_past_call_witness :
    step { Interpreter.new [.Call "act"] with
            running := true,
            callables := [("act", ⟨fun _ => false, 0⟩)] } =
      (.ok .Yield,
       { Interpreter.new [.Call "act"] with
           running := true,
           ip := 1,
           callables := updateKey [("act", ⟨fun _ => false, 0⟩)] "act"
             ((Callable.call ⟨fun _ => false, 0⟩).2) }) :=
  call_false_yields_past_call
    { Interpreter.new [.Call "act"] with
        running := true, callables := [("act", ⟨fun _ => false, 0⟩)] }
    "act" ⟨fun _ => false, 0⟩ rfl rfl rfl rfl

/-- C6: `Call(name)` with `name` not a registered callable pushes — when
`name` is a group — a frame whose `return_addr` is the address after the
`Call` and whose `stack_offset` is the current operand-stack length, then
jumps to the group's entry address; when `name` is neither, it fails with
`UnregisteredCallable`; and every group-table entry produced by
`scan_groups` is the index of a `Label(name)` instruction of the scanned
program. -/
theorem call_group_pushes_frame :
    (∀ (vm : Interpreter) (name : String), vm.running = true →
      vm.program.get? vm.ip = some (.Call name) →
      List.lookup name vm.callables = none →
      (∀ addr, List.lookup name vm.groups = some addr →
        step vm = (.ok .Continue,
          { vm with ip := addr,
                    call_stack := vm.call_stack ++ [⟨vm.ip + 1, vm.stack.length⟩] })) ∧
      (List.lookup name vm.groups = none →
        step vm = (.err (.UnregisteredCallable vm.ip name), { vm with ip := vm.ip + 1 }))) ∧
    (∀ (p : List Op) (n : String) (a : Nat),
      List.lookup n (scan_groups p) = some a → p.get? a = some (.Label n)) := by
  constructor
  · intro vm name hr hf hc
    constructor
    · intro addr hg
      rw [step_running_exec vm _ hr hf]
      rcases vm with ⟨prog, ip, stk, cstk, ps, cbs, gs, run⟩
      simp [exec, hc, hg]
    · intro hg
      rw [step_running_exec vm _ hr hf]
      rcases vm with ⟨prog, ip, stk, cstk, ps, cbs, gs, run⟩
      simp [exec, hc, hg]
  · exact scan_groups_label

/-- C6 witness: calling the group `"g"` of a two-instruction program
pushes the frame `{return_addr := 1, stack_offset := 0}` and jumps to the
`Label` at index 1, which scanning indeed maps `"g"` to. -/
theorem call_group_pushes_frame_witness :
    step { Interpreter.new [.Call "g", .Label "g"] with running := true } =
      (.ok .Continue,
       { Interpreter.new [.Call "g", .Label "g"] with
           running := true, ip := 1, call_stack := [⟨1, 0⟩] }) ∧
    [Op.Call "g", Op.Label "g"].get? 1 = some (.Label "g") := by
  refine ⟨?_, call_group_pushes_frame.2 [.Call "g", .Label "g"] "g" 1 rfl⟩
  have h := ((call_group_pushes_frame.1
    { Interpreter.new [.Call "g", .Label "g"] with running := true } "g"
    rfl rfl rfl).1) 1 rfl
  simpa [Interpreter.new, scan_groups, scan_aux] using h

/-- C8: once the instruction pointer is past the end of the program and
all external references verify, `step()` returns `Stop` with the running
flag cleared and the instruction pointer, operand stack and call stack
unchanged — and it keeps doing exactly that on every subsequent `step()`. -/
theorem stop_stable_past_end (vm : Interpreter)
    (hend : vm.program.length ≤ vm.ip)
    (hok : verify_externals vm.program vm.props vm.callables vm.groups = []) :
    ∀ n : Nat, step (stepVM^[n] vm) = (.ok .Stop, { vm with running := false }) := by
  rcases vm with ⟨prog, ip, stk, cstk, ps, cbs, gs, run⟩
  simp only at hend hok
  have hget : prog[ip]? = none := List.getElem?_eq_none hend
  have h1 : ∀ r : Bool,
      step (Interpreter.mk prog ip stk cstk ps cbs gs r) =
        (.ok .Stop, Interpreter.mk prog ip stk cstk ps cbs gs false) := by
    intro r
    cases r <;> simp [step, hok, stepExec, hget]
  have h2 : ∀ n : Nat,
      stepVM^[n] (Interpreter.mk prog ip stk cstk ps cbs gs run) =
        Interpreter.mk prog ip stk cstk ps cbs gs (run && decide (n = 0)) := by
    intro n
    induction n with
    | zero => simp
    | succ k ihk =>
      rw [Function.iterate_succ_apply', ihk, stepVM, h1]
      simp
  intro n
  rw [h2 n]
  exact h1 _

/-- C8 witness: a one-instruction program stepped from past its end keeps
returning `Stop` with only the running flag (already clear) affected. -/
theorem stop_stable_past_end_witness :
    step (stepVM^[2] { Interpreter.new [.Pop] with ip := 1 }) =
      (.ok .Stop, { { Interpreter.new [.Pop] with ip := 1 } with running := false }) :=
  stop_stable_past_end { Interpreter.new [.Pop] with ip := 1 }
    (by simp [Interpreter.new]) rfl 2

/-- C9: executing `Pop` on an empty operand stack silently succeeds
(`Continue`, stack still empty), while every other stack-consuming
instruction executed on an empty stack fails with `StackUnderflow` at the
instruction's address. -/
theorem pop_empty_silent_noop :
    (∀ vm : Interpreter, vm.running = true → vm.stack = [] →
      vm.program.get? vm.ip = some .Pop →
      step vm = (.ok .Continue, { vm with ip := vm.ip + 1 })) ∧
    (∀ (vm : Interpreter) (op : Op), vm.running = true → vm.stack = [] →
      vm.program.get? vm.ip = some op → consumesStack op = true →
      step vm = (.err (.StackUnderflow vm.ip), { vm with ip := vm.ip + 1 })) := by
  constructor
  · intro vm hr hs hf
    rw [step_running_exec vm _ hr hf]
    rcases vm with ⟨prog, ip, stk, cstk, ps, cbs, gs, run⟩
    simp only at hs
    subst hs
    simp [exec]
  · intro vm op hr hs hf hc
    rw [step_running_exec vm _ hr hf]
    rcases vm with ⟨prog, ip, stk, cstk, ps, cbs, gs, run⟩
    simp only at hs
    subst hs
    cases op <;>
      simp_all [consumesStack, exec, binop, logicop, popEnd]

/-- C9 witness: `Pop` on an empty stack continues; `Add` (a
stack-consuming instruction) on an empty stack underflows. -/
theorem pop_empty_silent_noop_witness :
    step { Interpreter.new [.Pop] with running := true } =
      (.ok .Continue, { Interpreter.new [.Pop] with running := true, ip := 1 }) ∧
    step { Interpreter.new [.Add] with running := true } =
      (.err (.StackUnderflow 0), { Interpreter.new [.Add] with running := true, ip := 1 }) :=
  ⟨pop_empty_silent_noop.1 { Interpreter.new [.Pop] with running := true } rfl rfl rfl,
   pop_empty_silent_noop.2 { Interpreter.new [.Add] with running := true } .Add
     rfl rfl rfl rfl⟩

/-- C10: `Eq` and `Ne` accept operands of any kinds and never raise a type
error: with right operand `a` atop left operand `b`, `Eq` pushes
`Bool(a = b)` and `Ne` pushes `Bool(a ≠ b)`, structural (in)equality; when
the two kinds differ the pushed comparison is `false` for `Eq` and `true`
for `Ne`. -/
theorem eq_ne_any_kinds :
    (∀ (vm : Interpreter) (rest : List Value) (a b : Value), vm.running = true →
      vm.stack = rest ++ [b, a] →
      (vm.program.get? vm.ip = some .Eq →
        step vm = (.ok .Continue,
          { vm with ip := vm.ip + 1, stack := rest ++ [.Bool (a = b)] })) ∧
      (vm.program.get? vm.ip = some .Ne →
        step vm = (.ok .Continue,
          { vm with ip := vm.ip + 1, stack := rest ++ [.Bool (a ≠ b)] }))) ∧
    (∀ a b : Value, a.kind ≠ b.kind →
      (decide (a = b)) = false ∧ (decide (a ≠ b)) = true) := by
  constructor
  · intro vm rest a b hr hs
    have hsplit : vm.stack = (rest ++ [b]) ++ [a] := by simp [hs]
    constructor
    · intro hf
      rw [step_running_exec vm _ hr hf]
      rcases vm with ⟨prog, ip, stk, cstk, ps, cbs, gs, run⟩
      simp only at hsplit
      subst hsplit
      simp [exec, popEnd_two, popEnd_concat]
    · intro hf
      rw [step_running_exec vm _ hr hf]
      rcases vm with ⟨prog, ip, stk, cstk, ps, cbs, gs, run⟩
      simp only at hsplit
      subst hsplit
      simp [exec, popEnd_two, popEnd_concat]
  · intro a b hk
    cases a <;> cases b <;> simp_all [Value.kind]

/-- C10 witness: comparing `Number 1` with `String "x"` via `Eq` pushes
`Bool false` and continues, with no type error. -/
theorem eq_ne_any_kinds_witness :
    step { Interpreter.new [.Eq] with
             running := true,
             stack := [.String "x", .Number 1] } =
      (.ok .Continue,
       { Interpreter.new [.Eq] with
           running := true,
           ip := 1,
           stack := [.Bool (Value.Number 1 = Value.String "x")] }) ∧
    (decide (Value.Number 1 = Value.String "x")) = false := by
  refine ⟨?_, (eq_ne_any_kinds.2 (.Number 1) (.String "x") (by simp [Value.kind])).1⟩
  have h := ((eq_ne_any_kinds.1
    { Interpreter.new [.Eq] with running := true, stack := [.String "x", .Number 1] }
    [] (.Number 1) (.String "x") rfl rfl).1) rfl
  simpa using h

/-- C3: `Add` pops two operands; number+number pushes the sum (`1 + 2`
yields `3`), string+string pushes left-then-right concatenation
(`"foo" + "bar"` yields `"foobar"`), and any mismatched pairing fails with
the `Type` error whose message is selected by the first-popped (right)
operand — for left `Number 1` and right `String "x"` that message is
"Right operand must be a string", naming the right operand. -/
theorem add_polymorphic :
    (stepVM (stepVM (stepVM (Interpreter.new
      [.Push (.Number 1), .Push (.Number 2), .Add])))).stack = [.Number 3] ∧
    (stepVM (stepVM (stepVM (Interpreter.new
      [.Push (.String "foo"), .Push (.String "bar"), .Add])))).stack = [.String "foobar"] ∧
    (∀ (vm : Interpreter) (rest : List Value) (m n : ℚ), vm.running = true →
      vm.stack = rest ++ [.Number m, .Number n] →
      vm.program.get? vm.ip = some .Add →
      step vm = (.ok .Continue,
        { vm with ip := vm.ip + 1, stack := rest ++ [.Number (m + n)] })) ∧
    (∀ (vm : Interpreter) (rest : List Value) (t s : String), vm.running = true →
      vm.stack = rest ++ [.String t, .String s] →
      vm.program.get? vm.ip = some .Add →
      step vm = (.ok .Continue,
        { vm with ip := vm.ip + 1, stack := rest ++ [.String (t ++ s)] })) ∧
    (∀ (vm : Interpreter) (rest : List Value) (left right : Value), vm.running = true →
      vm.stack = rest ++ [left, right] →
      vm.program.get? vm.ip = some .Add →
      ¬(left.kind = 0 ∧ right.kind = 0) →
      ¬(left.kind = 1 ∧ right.kind = 1) →
      step vm = (.err (.Type (addTypeErrMsg right)),
        { vm with ip := vm.ip + 1, stack := rest })) := by
  refine ⟨?_, ?_, ?_, ?_, ?_⟩
  · norm_num [stepVM, step, stepExec, exec, Interpreter.new, scan_groups, scan_aux,
      verify_externals, verify_aux, popEnd]
  · norm_num [stepVM, step, stepExec, exec, Interpreter.new, scan_groups, scan_aux,
      verify_externals, verify_aux, popEnd]
    rfl
  · intro vm rest m n hr hs hf
    have hsplit : vm.stack = (rest ++ [Value.Number m]) ++ [Value.Number n] := by simp [hs]
    rw [step_running_exec vm _ hr hf]
    rcases vm with ⟨prog, ip, stk, cstk, ps, cbs, gs, run⟩
    simp only at hsplit
    subst hsplit
    simp [exec, popEnd_two, popEnd_concat]
  · intro vm rest t s hr hs hf
    have hsplit : vm.stack = (rest ++ [Value.String t]) ++ [Value.String s] := by simp [hs]
    rw [step_running_exec vm _ hr hf]
    rcases vm with ⟨prog, ip, stk, cstk, ps, cbs, gs, run⟩
    simp only at hsplit
    subst hsplit
    simp [exec, popEnd_two, popEnd_concat]
  · intro vm rest left right hr hs hf hnn hss
    have hsplit : vm.stack = (rest ++ [left]) ++ [right] := by simp [hs]
    rw [step_running_exec vm _ hr hf]
    rcases vm with ⟨prog, ip, stk, cstk, ps, cbs, gs, run⟩
    simp only at hsplit
    subst hsplit
    cases left <;> cases right <;>
      simp_all [Value.kind, exec, addTypeErrMsg, popEnd_two, popEnd_concat]

/-- C3 witness: left operand `Number 1`, right operand `String "x"`; `Add`
fails with the `Type` error naming the right operand. -/
theorem add_polymorphic_witness :
    step { Interpreter.new [.Add] with
             running := true,
             stack := [.Number 1, .String "x"] } =
      (.err (.Type "Right operand must be a string"),
       { Interpreter.new [.Add] with
           running := true,
           ip := 1,
           stack := [] }) := by
  have h := add_polymorphic.2.2.2.2
    { Interpreter.new [.Add] with running := true, stack := [.Number 1, .String "x"] }
    [] (.Number 1) (.String "x") rfl rfl rfl
    (by simp [Value.kind]) (by simp [Value.kind])
  simpa [addTypeErrMsg] using h

/-- C4: every non-commutative binary instruction computes
`left OP right` with the *second*-popped value as the left operand: a
program pushing `a` then `b` and executing `Sub` leaves `Number (a - b)`
(not `b - a`), and with right operand `b` atop left operand `a`, `Sub`,
`Div`, `Mod`, `Exp`, `Lt`, `Le`, `Gt`, `Ge` push `a OP b`. -/
theorem binop_left_operand_second_popped :
    (∀ a b : ℚ, (stepVM (stepVM (stepVM (Interpreter.new
      [.Push (.Number a), .Push (.Number b), .Sub])))).stack = [.Number (a - b)]) ∧
    (∀ (vm : Interpreter) (rest : List Value) (a b : ℚ), vm.running = true →
      vm.stack = rest ++ [.Number a, .Number b] →
      (vm.program.get? vm.ip = some .Sub → step vm = (.ok .Continue,
        { vm with ip := vm.ip + 1, stack := rest ++ [.Number (a - b)] })) ∧
      (vm.program.get? vm.ip = some .Div → step vm = (.ok .Continue,
        { vm with ip := vm.ip + 1, stack := rest ++ [.Number (a / b)] })) ∧
      (vm.program.get? vm.ip = some .Mod → step vm = (.ok .Continue,
        { vm with ip := vm.ip + 1, stack := rest ++ [.Number (fmod a b)] })) ∧
      (vm.program.get? vm.ip = some .Exp → step vm = (.ok .Continue,
        { vm with ip := vm.ip + 1, stack := rest ++ [.Number (powf a b)] })) ∧
      (vm.program.get? vm.ip = some .Lt → step vm = (.ok .Continue,
        { vm with ip := vm.ip + 1, stack := rest ++ [.Bool (a < b)] })) ∧
      (vm.program.get? vm.ip = some .Le → step vm = (.ok .Continue,
        { vm with ip := vm.ip + 1, stack := rest ++ [.Bool (a ≤ b)] })) ∧
      (vm.program.get? vm.ip = some .Gt → step vm = (.ok .Continue,
        { vm with ip := vm.ip + 1, stack := rest ++ [.Bool (a > b)] })) ∧
      (vm.program.get? vm.ip = some .Ge → step vm = (.ok .Continue,
        { vm with ip := vm.ip + 1, stack := rest ++ [.Bool (a ≥ b)] }))) := by
  constructor
  · intro a b
    norm_num [stepVM, step, stepExec, exec, binop, Interpreter.new, scan_groups, scan_aux,
      verify_externals, verify_aux, popEnd]
  · intro vm rest a b hr hs
    have hsplit : vm.stack = (rest ++ [Value.Number a]) ++ [Value.Number b] := by simp [hs]
    refine ⟨?_, ?_, ?_, ?_, ?_, ?_, ?_, ?_⟩ <;>
    · intro hf
      rw [step_running_exec vm _ hr hf]
      rcases vm with ⟨prog, ip, stk, cstk, ps, cbs, gs, run⟩
      simp only at hsplit
      subst hsplit
      simp [exec, binop, popEnd_two, popEnd_concat]

/-- C4 witness: the program `5 - 3` (operands pushed left then right)
computes `2`, not `-2`. -/
theorem binop_left_operand_second_popped_witness :
    (stepVM (stepVM (stepVM (Interpreter.new
      [.Push (.Number 5), .Push (.Number 3), .Sub])))).stack = [.Number 2] ∧
    step { Interpreter.new [.Sub] with
             running := true,
             stack := [.Number 5, .Number 3] } =
      (.ok .Continue,
       { Interpreter.new [.Sub] with
           running := true,
           ip := 1,
           stack := [.Number 2] }) := by
  constructor
  · have h := binop_left_operand_second_popped.1 5 3
    norm_num at h
    exact h
  · have h := (binop_left_operand_second_popped.2
      { Interpreter.new [.Sub] with running := true, stack := [.Number 5, .Number 3] }
      [] 5 3 rfl rfl).1 rfl
    norm_num at h
    exact h

/-- C2 counterexample: cross-namespace name collisions are *not* rejected.
On a fresh, non-running interpreter whose program defines the group `"g"`,
`register_property "g"` succeeds and inserts the property (the claim says
it must return a duplicate error and leave registrations unchanged); and
after registering the property `"p"`, `register_callable "p"` succeeds as
well. -/
theorem register_cross_namespace_accepted :
    containsKey (Interpreter.new [.Label "g"]).groups "g" = true ∧
    ((Interpreter.new [.Label "g"]).register_property "g" ⟨.Number 0, true⟩).1 = .ok () ∧
    ((Interpreter.new [.Label "g"]).register_property "g" ⟨.Number 0, true⟩).2.props =
      [("g", ⟨.Number 0, true⟩)] ∧
    containsKey ((Interpreter.new []).register_property "p" ⟨.Number 0, true⟩).2.props "p" = true ∧
    (((Interpreter.new []).register_property "p" ⟨.Number 0, true⟩).2.register_callable
        "p" ⟨fun _ => true, 0⟩).1 = .ok () :=
  ⟨rfl, rfl, rfl, rfl, rfl⟩

/-- C2 (amended): on a non-running interpreter, `register_callable` fails
with `DuplicateCallable` — leaving every registration unchanged — exactly
when the name collides with an existing callable or group, and otherwise
succeeds; `register_property` fails with `DuplicateProperty` — leaving
every registration unchanged — exactly when the name collides with an
existing property, and otherwise succeeds.  Cross-namespace collisions
(property vs. callable/group) are not checked. -/
theorem register_duplicate_checks (vm : Interpreter) (name : String)
    (c : Callable) (p : PropT) (hr : vm.running = false) :
    ((containsKey vm.callables name || containsKey vm.groups name) = true →
      vm.register_callable name c = (.error (.DuplicateCallable name), vm)) ∧
    ((containsKey vm.callables name || containsKey vm.groups name) = false →
      vm.register_callable name c =
        (.ok (), { vm with callables := (name, c) :: vm.callables })) ∧
    (containsKey vm.props name = true →
      vm.register_property name p = (.error (.DuplicateProperty name), vm)) ∧
    (containsKey vm.props name = false →
      vm.register_property name p =
        (.ok (), { vm with props := (name, p) :: vm.props })) := by
  refine ⟨fun h => ?_, fun h => ?_, fun h => ?_, fun h => ?_⟩ <;>
    simp [Interpreter.register_callable, Interpreter.register_property, hr, h]

/-- C2 witness: on a non-running interpreter already knowing the callable
`"a"`, re-registering the callable `"a"` is rejected as a duplicate with
the state unchanged, while registering the property `"a"` (a
cross-namespace collision) succeeds. -/
theorem register_duplicate_checks_witness :
    { Interpreter.new [] with
        callables := [("a", ⟨fun _ => true, 0⟩)] }.register_callable "a" ⟨fun _ => true, 0⟩ =
      (.error (.DuplicateCallable "a"),
       { Interpreter.new [] with callables := [("a", ⟨fun _ => true, 0⟩)] }) ∧
    { Interpreter.new [] with
        callables := [("a", ⟨fun _ => true, 0⟩)] }.register_property "a" ⟨.Number 0, true⟩ =
      (.ok (),
       { Interpreter.new [] with
           callables := [("a", ⟨fun _ => true, 0⟩)],
           props := [("a", ⟨.Number 0, true⟩)] }) := by
  constructor
  · exact (register_duplicate_checks
      { Interpreter.new [] with callables := [("a", ⟨fun _ => true, 0⟩)] }
      "a" ⟨fun _ => true, 0⟩ ⟨.Number 0, true⟩ rfl).1 rfl
  · have h := (register_duplicate_checks
      { Interpreter.new [] with callables := [("a", ⟨fun _ => true, 0⟩)] }
      "a" ⟨fun _ => true, 0⟩ ⟨.Number 0, true⟩ rfl).2.2.2 rfl
    simpa using h

theorem verify_aux_eq (props : List (String × PropT)) (cs : List (String × Callable))
    (gs : List (String × Nat)) :
    ∀ (l : List (Nat × Op)) (errs : List Error) (seen : List String),
    verify_aux props cs gs l errs seen =
      errs ++ (firstOffenders props cs gs l seen).map (mkVerifyError props) := by
  intro l
  induction l with
  | nil => simp [verify_aux, firstOffenders]
  | cons hd rest ih =>
    intro errs seen
    obtain ⟨i, op⟩ := hd
    cases op with
    | Get n =>
      by_cases h1 : n ∈ seen <;> by_cases h2 : containsKey props n <;>
        simp [verify_aux, firstOffenders, extName, offends, mkVerifyError, h1, h2, ih]
    | Set n =>
      cases hp : List.lookup n props with
      | some p =>
        by_cases h1 : p.settable <;> by_cases h2 : n ∈ seen <;>
          simp [verify_aux, firstOffenders, extName, offends, mkVerifyError,
            containsKey, hp, h1, h2, ih]
      | none =>
        by_cases h1 : n ∈ seen <;>
          simp [verify_aux, firstOffenders, extName, offends, mkVerifyError,
            containsKey, hp, h1, ih]
    | Call n =>
      by_cases h1 : containsKey cs n <;> by_cases h2 : containsKey gs n <;>
        by_cases h3 : n ∈ seen <;>
        simp [verify_aux, firstOffenders, extName, offends, mkVerifyError, h1, h2, h3, ih]
    | CallParallel n =>
      by_cases h1 : containsKey gs n <;> by_cases h2 : n ∈ seen <;>
        simp [verify_aux, firstOffenders, extName, offends, mkVerifyError, h1, h2, ih]
    | CallRace n =>
      by_cases h1 : containsKey gs n <;> by_cases h2 : n ∈ seen <;>
        simp [verify_aux, firstOffenders, extName, offends, mkVerifyError, h1, h2, ih]
    | Load a => simp [verify_aux, firstOffenders, extName, ih]
    | Store a => simp [verify_aux, firstOffenders, extName, ih]
    | Push v => simp [verify_aux, firstOffenders, extName, ih]
    | Pop => simp [verify_aux, firstOffenders, extName, ih]
    | Dup => simp [verify_aux, firstOffenders, extName, ih]
    | Add => simp [verify_aux, firstOffenders, extName, ih]
    | Sub => simp [verify_aux, firstOffenders, extName, ih]
    | Mul => simp [verify_aux, firstOffenders, extName, ih]
    | Div => simp [verify_aux, firstOffenders, extName, ih]
    | Mod => simp [verify_aux, firstOffenders, extName, ih]
    | Exp => simp [verify_aux, firstOffenders, extName, ih]
    | Neg => simp [verify_aux, firstOffenders, extName, ih]
    | Abs => simp [verify_aux, firstOffenders, extName, ih]
    | And => simp [verify_aux, firstOffenders, extName, ih]
    | Or => simp [verify_aux, firstOffenders, extName, ih]
    | Xor => simp [verify_aux, firstOffenders, extName, ih]
    | Eq => simp [verify_aux, firstOffenders, extName, ih]
    | Ne => simp [verify_aux, firstOffenders, extName, ih]
    | Lt => simp [verify_aux, firstOffenders, extName, ih]
    | Le => simp [verify_aux, firstOffenders, extName, ih]
    | Gt => simp [verify_aux, firstOffenders, extName, ih]
    | Ge => simp [verify_aux, firstOffenders, extName, ih]
    | Jump a => simp [verify_aux, firstOffenders, extName, ih]
    | JumpUnless a => simp [verify_aux, firstOffenders, extName, ih]
    | JumpIf a => simp [verify_aux, firstOffenders, extName, ih]
    | Label nm => simp [verify_aux, firstOffenders, extName, ih]

theorem errorName_mk (props : List (String × PropT)) (i : Nat) (op : Op)
    (n m : String) (h : extName op = some n)
    (hm : errorName (mkVerifyError props (i, op)) = some m) : m = n := by
  cases op with
  | Set nm =>
    by_cases hc : containsKey props nm <;> simp_all [extName, mkVerifyError, errorName]
  | Get nm => simp_all [extName, mkVerifyError, errorName]
  | Call nm => simp_all [extName, mkVerifyError, errorName]
  | CallParallel nm => simp_all [extName, mkVerifyError, errorName]
  | CallRace nm => simp_all [extName, mkVerifyError, errorName]
  | Load a => simp_all [extName]
  | Store a => simp_all [extName]
  | Push v => simp_all [extName]
  | Pop => simp_all [extName]
  | Dup => simp_all [extName]
  | Add => simp_all [extName]
  | Sub => simp_all [extName]
  | Mul => simp_all [extName]
  | Div => simp_all [extName]
  | Mod => simp_all [extName]
  | Exp => simp_all [extName]
  | Neg => simp_all [extName]
  | Abs => simp_all [extName]
  | And => simp_all [extName]
  | Or => simp_all [extName]
  | Xor => simp_all [extName]
  | Eq => simp_all [extName]
  | Ne => simp_all [extName]
  | Lt => simp_all [extName]
  | Le => simp_all [extName]
  | Gt => simp_all [extName]
  | Ge => simp_all [extName]
  | Jump a => simp_all [extName]
  | JumpUnless a => simp_all [extName]
  | JumpIf a => simp_all [extName]
  | Label nm => simp_all [extName]

theorem firstOffenders_names (props : List (String × PropT))
    (cs : List (String × Callable)) (gs : List (String × Nat)) :
    ∀ (l : List (Nat × Op)) (seen : List String),
    (((firstOffenders props cs gs l seen).map (mkVerifyError props)).filterMap
        errorName).Nodup ∧
    ∀ m ∈ ((firstOffenders props cs gs l seen).map (mkVerifyError props)).filterMap
        errorName, m ∉ seen := by
  intro l
  induction l with
  | nil => simp [firstOffenders]
  | cons hd rest ih =>
    intro seen
    obtain ⟨i, op⟩ := hd
    cases he : extName op with
    | none =>
      have hstep :
          firstOffenders props cs gs ((i, op) :: rest) seen =
            firstOffenders props cs gs rest seen := by
        simp only [firstOffenders, he]
      rw [hstep]
      exact ih seen
    | some n =>
      by_cases hb : (offends props cs gs op && !seen.contains n) = true
      · have hstep :
            firstOffenders props cs gs ((i, op) :: rest) seen =
              (i, op) :: firstOffenders props cs gs rest (n :: seen) := by
          simp only [firstOffenders, he]
          rw [if_pos hb]
        have hn : n ∉ seen := by
          have h2 := ((Bool.and_eq_true _ _).mp hb).2
          simpa using h2
        rw [hstep]
        have hrec := ih (n :: seen)
        cases hm : errorName (mkVerifyError props (i, op)) with
        | none =>
          simp only [List.map_cons, List.filterMap_cons, hm]
          exact ⟨hrec.1,
            fun m hmem hms => (hrec.2 m hmem) (List.mem_cons_of_mem _ hms)⟩
        | some m0 =>
          have hm0 : m0 = n := errorName_mk props i op n m0 he hm
          rw [hm0] at hm
          simp only [List.map_cons, List.filterMap_cons, hm]
          refine ⟨List.nodup_cons.mpr
            ⟨fun hmem => (hrec.2 n hmem) (List.mem_cons_self _ _), hrec.1⟩, ?_⟩
          intro m hmem
          rcases List.mem_cons.mp hmem with hEq | hmem2
          · subst hEq
            exact hn
          · exact fun hms => (hrec.2 m hmem2) (List.mem_cons_of_mem _ hms)
      · have hstep :
            firstOffenders props cs gs ((i, op) :: rest) seen =
              firstOffenders props cs gs rest seen := by
          simp only [firstOffenders, he]
          rw [if_neg hb]
        rw [hstep]
        exact ih seen

/-- C1: the pre-execution verification pass reports each distinct
offending external name exactly once — at the first instruction, in a
linear scan, whose reference to that name is invalid, whatever the role
(`Get`/`Set` property read or write, `Call`/`CallParallel`/`CallRace`
target) and however many instructions reference it — with a registered
but unsettable `Set` target reported as `UnsettableProperty`; the reported
names carry no duplicates. -/
theorem verify_reports_each_name_once (program : List Op)
    (props : List (String × PropT)) (cs : List (String × Callable))
    (gs : List (String × Nat)) :
    verify_externals program props cs gs = spec_verify_report program props cs gs ∧
    ((verify_externals program props cs gs).filterMap errorName).Nodup := by
  have h := verify_aux_eq props cs gs program.enum [] []
  constructor
  · simpa [verify_externals, spec_verify_report] using h
  · rw [verify_externals, h]
    simpa using (firstOffenders_names props cs gs program.enum []).1

end AiCommand
